import Mathlib

/-!
# PyLTSpice_macOS: a verification model

The repository is a thin macOS toolchain that drives the external LTSpice
simulator: it parses a text-based schematic file into a flat component
record, shells out to the simulator, parses the resulting trace-output
file into named signal arrays, and exposes setters (`change_component`),
a re-run entry point (`update`), a reader (`get_trace_data`) and plotting
helpers.  The repository ships only a README and example notebooks; the
Python modules themselves are not part of the analysed material, so every
operation below is modelled from the specification's description of it,
faithfully to the spec's words, and the theorems are proved against that
model.
-/

/-- Modelled from the spec: a token of the simulator's trace-output file.
The missing reader code distinguishes signal names (words) from numeric
samples; we model numbers abstractly as integers since only their identity
and sign are specified. -/
inductive Tok where
  | num : Int → Tok
  | word : String → Tok
deriving DecidableEq, Repr

/-- Modelled from the spec: one entry of the schematic's component list,
"component list and coordinates parsed from a text-based circuit
description file".  Coordinates are kept as the raw placement tokens of
the file, since the spec assigns them no arithmetic. -/
structure Component where
  name : String
  value : String
  x : String
  y : String
deriving DecidableEq, Repr

/-- Modelled from the spec: one line of the schematic file, either a
component declaration with its placement or any other line of the
text-based circuit description, kept verbatim. -/
inductive SchLine where
  | comp : Component → SchLine
  | other : List String → SchLine
deriving DecidableEq, Repr

/-- Modelled from the spec: the schematic object, a flat passive record
holding the parsed lines of the circuit description file. -/
structure Schematic where
  lines : List SchLine
deriving DecidableEq, Repr

/-- Modelled from the spec: parsing of one tokenised schematic line.  A
five-token component line yields a `Component`; every other line is kept
verbatim. -/
def parseSchLine (ts : List String) : SchLine :=
  match ts with
  | ["COMP", n, v, x, y] => SchLine.comp ⟨n, v, x, y⟩
  | ts => SchLine.other ts

/-- Modelled from the spec: re-serialization of one schematic line. -/
def serializeSchLine (l : SchLine) : List String :=
  match l with
  | SchLine.comp c => ["COMP", c.name, c.value, c.x, c.y]
  | SchLine.other ts => ts

/-- Modelled from the spec: "parse on load" of the schematic file. -/
def parseSchematic (file : List (List String)) : Schematic :=
  ⟨file.map parseSchLine⟩

/-- Modelled from the spec: "re-serialize on save" of the schematic. -/
def serializeSchematic (s : Schematic) : List (List String) :=
  s.lines.map serializeSchLine

/-- The component list of a schematic. -/
def Schematic.components (s : Schematic) : List Component :=
  s.lines.filterMap fun l =>
    match l with
    | SchLine.comp c => some c
    | SchLine.other _ => none

/-- Whether a schematic line declares a component with the given name. -/
def lineNamed (l : SchLine) (n : String) : Bool :=
  match l with
  | SchLine.comp c => c.name = n
  | SchLine.other _ => false

/-- Modelled from the spec: "mutate one field on a setter call" — the
setter `change_component(name, value)` replaces the value of the
component with the given name and touches nothing else. -/
def Schematic.change_component (s : Schematic) (n v : String) : Schematic :=
  ⟨s.lines.map fun l =>
    match l with
    | SchLine.comp c =>
        if c.name = n then SchLine.comp ⟨c.name, v, c.x, c.y⟩ else SchLine.comp c
    | SchLine.other ts => SchLine.other ts⟩

/-- A file well formed in the sense of the external tool's fixtures:
every component-tagged line carries exactly its five tokens. -/
def WellFormedFile (file : List (List String)) : Prop :=
  ∀ ts ∈ file, ts.head? = some ("COMP") → ts.length = 5

instance : DecidablePred WellFormedFile := fun file =>
  inferInstanceAs (Decidable (∀ ts ∈ file, ts.head? = some ("COMP") → ts.length = 5))

/-- Modelled from the spec: the errors the toolchain propagates,
"missing schematic file, missing output file, malformed trace line". -/
inductive LTCError where
  | missingSchematicFile : String → LTCError
  | missingOutputFile : LTCError
  | malformedTraceLine : List Tok → LTCError
deriving DecidableEq, Repr

/-- Modelled from the spec: reading the numeric samples of a trace line;
a non-numeric token among the samples makes the line malformed. -/
def parseNums (ts : List Tok) : Option (List Int) :=
  match ts with
  | [] => some []
  | Tok.num x :: rest => (parseNums rest).map fun xs => x :: xs
  | Tok.word _ :: _ => none

/-- Modelled from the spec: reading one line of the trace-output file as
a named signal array; the line is malformed unless it is a signal name
followed by numeric samples. -/
def parseTraceLine (ts : List Tok) : Option (String × List Int) :=
  match ts with
  | Tok.word name :: vals => (parseNums vals).map fun xs => (name, xs)
  | _ => none

/-- Modelled from the spec: reading the whole trace-output file; the
first malformed line is propagated unchanged as the error. -/
def parseTraces (file : List (List Tok)) : Except LTCError (List (String × List Int)) :=
  match file with
  | [] => Except.ok []
  | ts :: rest =>
    match parseTraceLine ts with
    | none => Except.error (LTCError.malformedTraceLine ts)
    | some p => (parseTraces rest).map fun tr => p :: tr

/-- Name lookup in the trace dataset. -/
def lookupTrace (name : String) (tr : List (String × List Int)) : Option (List Int) :=
  match tr with
  | [] => none
  | p :: rest => if p.1 = name then some p.2 else lookupTrace name rest

/-- Modelled from the spec: the world outside the toolchain — the file
system entry for schematic files (`none` models a missing schematic
file) and the external, opaque simulator, which for a schematic either
produces a trace-output file or leaves none behind. -/
structure World where
  schematicFiles : String → Option (List (List String))
  simulator : Schematic → Option (List (List Tok))

/-- Modelled from the spec: the observable events of one scripted run,
"invoke external simulator, wait for completion, read result file,
plot". -/
inductive Event where
  | invokeSimulator : Schematic → Event
  | simulatorCompleted : Event
  | readOutputFile : Event
  | plot : Event
deriving DecidableEq, Repr

def isInvoke (e : Event) : Bool :=
  match e with
  | Event.invokeSimulator _ => true
  | _ => false

def isCompleted (e : Event) : Bool :=
  match e with
  | Event.simulatorCompleted => true
  | _ => false

def isRead (e : Event) : Bool :=
  match e with
  | Event.readOutputFile => true
  | _ => false

def isPlot (e : Event) : Bool :=
  match e with
  | Event.plot => true
  | _ => false

/-- Modelled from the spec: one simulation run, instrumented with its
event log — the simulator is invoked on the schematic, the call waits
for the process to complete, and only then is the result file read (no
read event occurs when the output file is missing). -/
def runSimulationEv (w : World) (sch : Schematic) :
    List Event × Except LTCError (List (String × List Int)) :=
  match w.simulator sch with
  | none =>
      ([Event.invokeSimulator sch, Event.simulatorCompleted],
       Except.error LTCError.missingOutputFile)
  | some out =>
      ([Event.invokeSimulator sch, Event.simulatorCompleted, Event.readOutputFile],
       parseTraces out)

/-- Modelled from the spec: the `LTC` object — a flat record holding the
schematic parsed from the circuit file and the trace dataset of the last
simulation run. -/
structure LTC where
  path : String
  schematic : Schematic
  traces : List (String × List Int)
deriving DecidableEq, Repr

/-- One simulation run without its event log. -/
def runSimulation (w : World) (sch : Schematic) :
    Except LTCError (List (String × List Int)) :=
  match w.simulator sch with
  | none => Except.error LTCError.missingOutputFile
  | some out => parseTraces out

/-- Modelled from the spec: construction of the `LTC` object from a
schematic file path, instrumented with its event log — the schematic
file is loaded and parsed, the simulator is run on it and the trace
dataset is loaded, all before the constructor returns. -/
def LTC.makeEv (w : World) (path : String) : List Event × Except LTCError LTC :=
  match w.schematicFiles path with
  | none => ([], Except.error (LTCError.missingSchematicFile path))
  | some file =>
      ((runSimulationEv w (parseSchematic file)).1,
       ((runSimulationEv w (parseSchematic file)).2).map fun tr =>
         ⟨path, parseSchematic file, tr⟩)

/-- Construction, forgetting the event log. -/
def LTC.make (w : World) (path : String) : Except LTCError LTC :=
  match w.schematicFiles path with
  | none => Except.error (LTCError.missingSchematicFile path)
  | some file =>
      (runSimulation w (parseSchematic file)).map fun tr =>
        ⟨path, parseSchematic file, tr⟩

/-- Modelled from the spec: `get_trace_data(name)` returns the named
signal array of the trace dataset. -/
def LTC.get_trace_data (obj : LTC) (name : String) : Option (List Int) :=
  lookupTrace name obj.traces

/-- Modelled from the spec: `change_component(name, value)` on the
object mutates the schematic's named component value and nothing else. -/
def LTC.change_component (obj : LTC) (n v : String) : LTC :=
  ⟨obj.path, obj.schematic.change_component n v, obj.traces⟩

/-- Modelled from the spec: `update()` re-runs the simulator on the
current (possibly modified) schematic and re-parses the resulting
trace-output file, instrumented with its event log. -/
def LTC.updateEv (w : World) (obj : LTC) : List Event × Except LTCError LTC :=
  ((runSimulationEv w obj.schematic).1,
   ((runSimulationEv w obj.schematic).2).map fun tr => ⟨obj.path, obj.schematic, tr⟩)

/-- `update()`, forgetting the event log. -/
def LTC.update (w : World) (obj : LTC) : Except LTCError LTC :=
  (runSimulation w obj.schematic).map fun tr => ⟨obj.path, obj.schematic, tr⟩

/-- Modelled from the spec: the event log of the README's scripted
usage — construct the object (which runs one simulation) and, on
success, plot the results. -/
def scriptRunEv (w : World) (path : String) : List Event :=
  match LTC.makeEv w path with
  | (evs, Except.ok _) => evs ++ [Event.plot]
  | (evs, Except.error _) => evs

/-- Modelled from the spec: the README warns that "time is sometimes not
read out correctly but this can be fixed by using the absolute value" —
the missing reader code may flip the sign of individual samples of the
`time` trace.  `applySigns` applies such a sign pattern from index `i`
on. -/
def applySigns (sg : Nat → Bool) (i : Nat) (xs : List Int) : List Int :=
  match xs with
  | [] => []
  | x :: rest => (if sg i then -x else x) :: applySigns sg (i + 1) rest

/-- Modelled from the spec: the trace dataset as the raw reader delivers
it — the `time` signal's samples may be sign-corrupted according to the
pattern `sg`; every other signal is delivered exactly. -/
def corruptTime (sg : Nat → Bool) (tr : List (String × List Int)) :
    List (String × List Int) :=
  tr.map fun p => if p.1 = "time" then (p.1, applySigns sg 0 p.2) else p

/-- Modelled from the spec: `get_trace_data` as read through the raw
reader affected by the sign corruption on the `time` trace. -/
def LTC.get_trace_data_raw (obj : LTC) (sg : Nat → Bool) (name : String) :
    Option (List Int) :=
  lookupTrace name (corruptTime sg obj.traces)

/-- Events preceded: every position of the log satisfying `p` has an
earlier position satisfying `q`. -/
def PrecededBy (evs : List Event) (p q : Event → Bool) : Prop :=
  ∀ i : Nat, i < evs.length → p (evs.getD i Event.simulatorCompleted) = true →
    ∃ j : Nat, j < i ∧ q (evs.getD j Event.simulatorCompleted) = true

/-! ## Concrete example data -/

/-- An example schematic file: two components and a wire line. -/
def fileEx : List (List String) :=
  [["COMP", "R1", "2k", "80", "32"],
   ["COMP", "V1", "5", "0", "0"],
   ["WIRE", "0", "1"]]

/-- The parsed example schematic. -/
def schEx : Schematic := parseSchematic fileEx

/-- An example trace-output file: a time signal and a voltage signal. -/
def outEx : List (List Tok) :=
  [[Tok.word ("time"), Tok.num 0, Tok.num 1, Tok.num 2],
   [Tok.word ("V(vout)"), Tok.num 5, Tok.num (-5), Tok.num 3]]

/-- The trace dataset read from `outEx`. -/
def trEx : List (String × List Int) :=
  [("time", [0, 1, 2]), ("V(vout)", [5, -5, 3])]

/-- An example world: the schematic file exists under one path and the
simulator always produces `outEx`. -/
def wEx : World :=
  ⟨fun p => if p = "amp.asc" then some fileEx else none, fun _ => some outEx⟩

/-- The object constructed from `wEx`. -/
def objEx : LTC := ⟨"amp.asc", schEx, trEx⟩

/-- A world with no schematic files at all. -/
def wNoFile : World := ⟨fun _ => none, fun _ => some outEx⟩

/-- A trace-output file whose single line is malformed (a word among the
samples). -/
def badOut : List (List Tok) :=
  [[Tok.word ("time"), Tok.word ("x")]]

/-- A world whose simulator produces the malformed output file. -/
def wBadOut : World :=
  ⟨fun p => if p = "amp.asc" then some fileEx else none, fun _ => some badOut⟩

/-! ## Helper lemmas -/

/-- Serializing the parse of one line reconstructs the line. -/
theorem serializeSchLine_parseSchLine (ts : List String) :
    serializeSchLine (parseSchLine ts) = ts := by
  unfold parseSchLine
  split
  · rfl
  · rfl

/-- Applying `corruptTime` to a cons unfolds headwise. -/
theorem corruptTime_cons (sg : Nat → Bool) (p : String × List Int)
    (rest : List (String × List Int)) :
    corruptTime sg (p :: rest) =
      (if p.1 = "time" then (p.1, applySigns sg 0 p.2) else p) :: corruptTime sg rest := rfl

/-- Lookup in the corrupted dataset: the `time` signal gets its sign
pattern applied, every other name is looked up unchanged. -/
theorem lookupTrace_corruptTime (sg : Nat → Bool) (tr : List (String × List Int))
    (name : String) :
    lookupTrace name (corruptTime sg tr) =
      if name = "time" then (lookupTrace name tr).map (applySigns sg 0)
      else lookupTrace name tr := by
  induction tr with
  | nil =>
      simp only [corruptTime, List.map_nil, lookupTrace]
      split <;> rfl
  | cons p rest ih =>
      rw [corruptTime_cons]
      by_cases hp : p.1 = "time"
      · by_cases hn : p.1 = name
        · have hnt : name = "time" := hn ▸ hp
          simp [lookupTrace, hp, hn, hnt]
        · have hnt : ¬ name = "time" := fun h => hn (by rw [hp, h])
          have hn2 : ¬ ("time" : String) = name := fun h => hn (hp.trans h)
          simp [lookupTrace, hp, hn, hn2, hnt, ih]
      · by_cases hn : p.1 = name
        · have hnt : ¬ name = "time" := fun h => hp (by rw [hn, h])
          simp [lookupTrace, hp, hn, hnt]
        · simp [lookupTrace, hp, hn, ih]

/-- Element-wise absolute value undoes any sign pattern on nonnegative
samples. -/
theorem applySigns_abs (sg : Nat → Bool) :
    ∀ (xs : List Int) (i : Nat), (∀ x ∈ xs, 0 ≤ x) →
      (applySigns sg i xs).map (fun y => |y|) = xs := by
  intro xs
  induction xs with
  | nil => intro i _; rfl
  | cons x rest ih =>
      intro i hnn
      have hx : 0 ≤ x := hnn x (by simp)
      have hr : ∀ y ∈ rest, 0 ≤ y := fun y hy => hnn y (by simp [hy])
      simp only [applySigns, List.map_cons, ih (i + 1) hr]
      congr 1
      cases hsg : sg i
      · simp [abs_of_nonneg hx]
      · simp [abs_of_nonneg hx]

/-- A successful trace parse is exactly the pointwise parse of the file. -/
theorem parseTraces_ok_spec (file : List (List Tok)) (tr : List (String × List Int))
    (h : parseTraces file = Except.ok tr) :
    tr.length = file.length ∧
    ∀ i, i < file.length →
      ∃ ts p, file[i]? = some ts ∧ parseTraceLine ts = some p ∧ tr[i]? = some p := by
  induction file generalizing tr with
  | nil =>
      simp only [parseTraces, Except.ok.injEq] at h
      subst h
      exact ⟨rfl, fun i hi => absurd hi (by simp)⟩
  | cons ts rest ih =>
      unfold parseTraces at h
      cases hline : parseTraceLine ts with
      | none => rw [hline] at h; exact absurd h (by simp)
      | some p =>
          rw [hline] at h
          cases hrest : parseTraces rest with
          | error e => rw [hrest] at h; exact absurd h (by simp [Except.map])
          | ok tr0 =>
              rw [hrest] at h
              simp only [Except.map, Except.ok.injEq] at h
              subst h
              obtain ⟨hlen, hpt⟩ := ih tr0 hrest
              refine ⟨by simp [hlen], fun i hi => ?_⟩
              cases i with
              | zero => exact ⟨ts, p, by simp, hline, by simp⟩
              | succ i =>
                  obtain ⟨ts2, p2, h1, h2, h3⟩ := hpt i (by simpa using hi)
                  exact ⟨ts2, p2, by simpa using h1, h2, by simpa using h3⟩

/-- A failing trace parse points at a malformed line, propagated
unchanged as the error. -/
theorem parseTraces_error_spec (file : List (List Tok)) (e : LTCError)
    (h : parseTraces file = Except.error e) :
    ∃ ts, ts ∈ file ∧ parseTraceLine ts = none ∧ e = LTCError.malformedTraceLine ts := by
  induction file with
  | nil => simp [parseTraces] at h
  | cons ts rest ih =>
      unfold parseTraces at h
      cases hline : parseTraceLine ts with
      | none =>
          rw [hline] at h
          simp only [Except.error.injEq] at h
          exact ⟨ts, by simp, hline, h.symm⟩
      | some p =>
          rw [hline] at h
          cases hrest : parseTraces rest with
          | error e2 =>
              rw [hrest] at h
              simp only [Except.map, Except.error.injEq] at h
              subst h
              obtain ⟨ts2, hmem, hl, he⟩ := ih hrest
              exact ⟨ts2, by simp [hmem], hl, he⟩
          | ok tr0 =>
              rw [hrest] at h
              exact absurd h (by simp [Except.map])

/-- A malformed line in the file makes the trace parse fail. -/
theorem parseTraces_error_of_malformed (file : List (List Tok)) (ts : List Tok)
    (hmem : ts ∈ file) (hbad : parseTraceLine ts = none) :
    ∃ e, parseTraces file = Except.error e := by
  induction file with
  | nil => simp at hmem
  | cons ts2 rest ih =>
      unfold parseTraces
      cases hline : parseTraceLine ts2 with
      | none => exact ⟨_, rfl⟩
      | some p =>
          rcases List.mem_cons.mp hmem with h1 | h2
          · subst h1; rw [hline] at hbad; exact absurd hbad (by simp)
          · obtain ⟨e, he⟩ := ih h2
            rw [he]
            exact ⟨e, rfl⟩

/-- Pointwise view of `change_component` on the line list. -/
theorem change_component_getElem (s : Schematic) (n v : String) (j : Nat) :
    (s.change_component n v).lines[j]? = s.lines[j]?.map fun l =>
      match l with
      | SchLine.comp c =>
          if c.name = n then SchLine.comp ⟨c.name, v, c.x, c.y⟩ else SchLine.comp c
      | SchLine.other ts => SchLine.other ts := by
  simp [Schematic.change_component, List.getElem?_map]

/-- The instrumented run computes the same result as the plain run. -/
theorem runSimulationEv_snd (w : World) (sch : Schematic) :
    (runSimulationEv w sch).2 = runSimulation w sch := by
  unfold runSimulationEv runSimulation
  cases w.simulator sch <;> rfl

/-- The instrumented constructor computes the same result as `make`. -/
theorem makeEv_snd (w : World) (path : String) :
    (LTC.makeEv w path).2 = LTC.make w path := by
  unfold LTC.makeEv LTC.make
  cases w.schematicFiles path with
  | none => rfl
  | some file => simp [runSimulationEv_snd]

/-- The instrumented `update` computes the same result as `update`. -/
theorem updateEv_snd (w : World) (obj : LTC) :
    (LTC.updateEv w obj).2 = LTC.update w obj := by
  unfold LTC.updateEv LTC.update
  simp [runSimulationEv_snd]

/-- Inversion of a successful plain run. -/
theorem runSimulation_ok_spec (w : World) (sch : Schematic)
    (tr : List (String × List Int)) (h : runSimulation w sch = Except.ok tr) :
    ∃ out, w.simulator sch = some out ∧ parseTraces out = Except.ok tr := by
  unfold runSimulation at h
  split at h
  · exact absurd h (by simp)
  · rename_i out hs
    exact ⟨out, hs, h⟩

/-- Inversion of a successful construction. -/
theorem make_ok_spec (w : World) (path : String) (obj : LTC)
    (h : LTC.make w path = Except.ok obj) :
    ∃ file out, w.schematicFiles path = some file ∧
      obj.path = path ∧ obj.schematic = parseSchematic file ∧
      w.simulator (parseSchematic file) = some out ∧
      parseTraces out = Except.ok obj.traces := by
  unfold LTC.make at h
  split at h
  · exact absurd h (by simp)
  · rename_i file hf
    cases hr : runSimulation w (parseSchematic file) with
    | error e => rw [hr] at h; exact absurd h (by simp [Except.map])
    | ok tr =>
        rw [hr] at h
        simp only [Except.map, Except.ok.injEq] at h
        subst h
        obtain ⟨out, hs, hp⟩ := runSimulation_ok_spec w (parseSchematic file) tr hr
        exact ⟨file, out, hf, rfl, rfl, hs, hp⟩

/-- Inversion of a successful `update`. -/
theorem update_ok_spec (w : World) (obj obj2 : LTC)
    (h : LTC.update w obj = Except.ok obj2) :
    obj2.path = obj.path ∧ obj2.schematic = obj.schematic ∧
    ∃ out, w.simulator obj.schematic = some out ∧
      parseTraces out = Except.ok obj2.traces := by
  unfold LTC.update at h
  cases hr : runSimulation w obj.schematic with
  | error e => rw [hr] at h; exact absurd h (by simp [Except.map])
  | ok tr =>
      rw [hr] at h
      simp only [Except.map, Except.ok.injEq] at h
      subst h
      obtain ⟨out, hs, hp⟩ := runSimulation_ok_spec w obj.schematic tr hr
      exact ⟨rfl, rfl, out, hs, hp⟩

/-! ## Claim theorems -/

/-- C4: Parsing a well-formed schematic file on load and then
re-serializing the unmodified schematic object on save is a round trip:
the serialized output equals the original file content. -/
theorem schematic_round_trip (file : List (List String)) (h : WellFormedFile file) :
    serializeSchematic (parseSchematic file) = file := by
  unfold serializeSchematic parseSchematic
  rw [List.map_map]
  conv_rhs => rw [← List.map_id file]
  exact List.map_congr_left fun ts _ => serializeSchLine_parseSchLine ts

/-- Witness for C4 at the concrete example file. -/
theorem schematic_round_trip_witness :
    WellFormedFile fileEx ∧ serializeSchematic (parseSchematic fileEx) = fileEx :=
  ⟨by decide, schematic_round_trip fileEx (by decide)⟩

/-- C3: `change_component(name, value)` mutates exactly one field of the
loaded schematic — the named component's value: the resulting line list
is the original with the single line of the uniquely named component
replaced by the same component carrying the new value; its name and
coordinates, every other component, and every other line are unchanged. -/
theorem change_component_updates_exactly_one_value (s : Schematic) (n v : String)
    (i : Nat) (c : Component)
    (hi : s.lines[i]? = some (SchLine.comp c)) (hname : c.name = n)
    (huniq : ∀ j, j < s.lines.length → j ≠ i →
      lineNamed (s.lines.getD j (SchLine.other [])) n = false) :
    (s.change_component n v).lines = s.lines.set i (SchLine.comp ⟨c.name, v, c.x, c.y⟩) := by
  have hlt : i < s.lines.length := by
    by_contra hc
    push_neg at hc
    rw [List.getElem?_eq_none hc] at hi
    exact absurd hi (by simp)
  apply List.ext_getElem?
  intro j
  rw [change_component_getElem, List.getElem?_set]
  by_cases hij : i = j
  · subst hij
    rw [hi]
    simp [hname, hlt]
  · cases hj : s.lines[j]? with
    | none => simp [hij]
    | some l =>
        have hjlen : j < s.lines.length := (List.getElem?_eq_some.mp hj).1
        have hln : lineNamed (s.lines.getD j (SchLine.other [])) n = false :=
          huniq j hjlen (fun hji => hij hji.symm)
        rw [List.getD_eq_getElem?_getD, hj] at hln
        cases l with
        | comp d =>
            have hd : ¬ d.name = n := by simpa [lineNamed] using hln
            simp [hij, hd]
        | other ts => simp [hij]

/-- Witness for C3: renaming R1's value in the example schematic. -/
theorem change_component_updates_exactly_one_value_witness :
    (schEx.change_component ("R1") ("1k")).lines =
      schEx.lines.set 0 (SchLine.comp ⟨"R1", "1k", "80", "32"⟩) :=
  change_component_updates_exactly_one_value schEx ("R1") ("1k") 0
    ⟨"R1", "2k", "80", "32"⟩ (by decide) (by decide) (by decide)

/-- Event counts of one instrumented run: exactly one invocation, at
most one read. -/
theorem runSimulationEv_counts (w : World) (sch : Schematic) :
    (runSimulationEv w sch).1.countP isInvoke = 1 ∧
    (runSimulationEv w sch).1.countP isRead ≤ 1 := by
  unfold runSimulationEv
  cases w.simulator sch <;>
    simp [List.countP_cons, isInvoke, isRead]

/-- The invocation of the simulator on the given schematic is in the
run's event log. -/
theorem invoke_mem_runSimulationEv (w : World) (sch : Schematic) :
    Event.invokeSimulator sch ∈ (runSimulationEv w sch).1 := by
  unfold runSimulationEv
  cases w.simulator sch <;> simp

/-- The constructor's event log when the schematic file exists. -/
theorem makeEv_fst_of_some (w : World) (path : String)
    (file : List (List String)) (hf : w.schematicFiles path = some file) :
    (LTC.makeEv w path).1 = (runSimulationEv w (parseSchematic file)).1 := by
  unfold LTC.makeEv
  rw [hf]

/-- C1: For every signal name present in the simulator's trace-output
file, `get_trace_data(name)` returns that signal's array as read from
the file: the loaded trace dataset is exactly the pointwise parse of the
named signal arrays of the output file, and `get_trace_data` is name
lookup in that dataset. -/
theorem get_trace_data_returns_file_arrays (w : World) (path : String) (obj : LTC)
    (h : LTC.make w path = Except.ok obj) :
    ∃ out, w.simulator obj.schematic = some out ∧
      obj.traces.length = out.length ∧
      (∀ i, i < out.length → ∃ ts p, out[i]? = some ts ∧
        parseTraceLine ts = some p ∧ obj.traces[i]? = some p) ∧
      ∀ name, LTC.get_trace_data obj name = lookupTrace name obj.traces := by
  obtain ⟨file, out, hf, hpath, hsch, hs, hp⟩ := make_ok_spec w path obj h
  obtain ⟨hlen, hpt⟩ := parseTraces_ok_spec out obj.traces hp
  exact ⟨out, by rw [hsch]; exact hs, hlen, hpt, fun name => rfl⟩

/-- Witness for C1 at the concrete example world. -/
theorem get_trace_data_returns_file_arrays_witness :
    ∃ out, wEx.simulator objEx.schematic = some out ∧
      objEx.traces.length = out.length ∧
      (∀ i, i < out.length → ∃ ts p, out[i]? = some ts ∧
        parseTraceLine ts = some p ∧ objEx.traces[i]? = some p) ∧
      ∀ name, LTC.get_trace_data objEx name = lookupTrace name objEx.traces :=
  get_trace_data_returns_file_arrays wEx ("amp.asc") objEx rfl

/-- C9: Constructing an `LTC` object from a schematic file path
immediately runs the simulation and loads the trace dataset: the
constructor's event log already contains exactly one simulator
invocation, the dataset is the parse of that run's output file, and
`get_trace_data` returns valid signal arrays right after construction
with no prior call to `update()`. -/
theorem construction_runs_simulation (w : World) (path : String) (obj : LTC)
    (h : LTC.make w path = Except.ok obj) :
    ∃ file out, w.schematicFiles path = some file ∧
      obj.schematic = parseSchematic file ∧
      (LTC.makeEv w path).1.countP isInvoke = 1 ∧
      w.simulator obj.schematic = some out ∧
      parseTraces out = Except.ok obj.traces ∧
      ∀ name arr, lookupTrace name obj.traces = some arr →
        LTC.get_trace_data obj name = some arr := by
  obtain ⟨file, out, hf, hpath, hsch, hs, hp⟩ := make_ok_spec w path obj h
  refine ⟨file, out, hf, hsch, ?_, by rw [hsch]; exact hs, hp, fun name arr ha => ha⟩
  rw [makeEv_fst_of_some w path file hf]
  exact (runSimulationEv_counts w (parseSchematic file)).1

/-- Witness for C9 at the concrete example world. -/
theorem construction_runs_simulation_witness :
    ∃ file out, wEx.schematicFiles ("amp.asc") = some file ∧
      objEx.schematic = parseSchematic file ∧
      (LTC.makeEv wEx ("amp.asc")).1.countP isInvoke = 1 ∧
      wEx.simulator objEx.schematic = some out ∧
      parseTraces out = Except.ok objEx.traces ∧
      ∀ name arr, lookupTrace name objEx.traces = some arr →
        LTC.get_trace_data objEx name = some arr :=
  construction_runs_simulation wEx ("amp.asc") objEx rfl

/-- C2: `update()` triggers one simulation run of the external simulator
on the current (possibly modified) schematic and re-parses the resulting
trace-output file: the update's event log invokes the simulator exactly
once on the object's current schematic, and every subsequent
`get_trace_data` call reads the dataset parsed from the new run's output
file. -/
theorem update_reruns_simulation (w : World) (obj obj2 : LTC)
    (h : LTC.update w obj = Except.ok obj2) :
    obj2.schematic = obj.schematic ∧ obj2.path = obj.path ∧
    (LTC.updateEv w obj).1.countP isInvoke = 1 ∧
    Event.invokeSimulator obj.schematic ∈ (LTC.updateEv w obj).1 ∧
    ∃ out, w.simulator obj.schematic = some out ∧
      parseTraces out = Except.ok obj2.traces ∧
      ∀ name, LTC.get_trace_data obj2 name = lookupTrace name obj2.traces := by
  obtain ⟨hpath, hsch, out, hs, hp⟩ := update_ok_spec w obj obj2 h
  exact ⟨hsch, hpath, (runSimulationEv_counts w obj.schematic).1,
    invoke_mem_runSimulationEv w obj.schematic,
    out, hs, hp, fun name => rfl⟩

/-- Witness for C2: updating the example object after a component
change. -/
theorem update_reruns_simulation_witness :
    (LTC.change_component objEx ("R1") ("1k")).schematic =
      objEx.schematic.change_component ("R1") ("1k") ∧
    ∃ obj2, LTC.update wEx (LTC.change_component objEx ("R1") ("1k")) = Except.ok obj2 ∧
      obj2.schematic = (LTC.change_component objEx ("R1") ("1k")).schematic := by
  refine ⟨rfl, ⟨"amp.asc", objEx.schematic.change_component ("R1") ("1k"), trEx⟩, rfl, ?_⟩
  exact (update_reruns_simulation wEx (LTC.change_component objEx ("R1") ("1k"))
    ⟨"amp.asc", objEx.schematic.change_component ("R1") ("1k"), trEx⟩ rfl).1

/-- Inversion of a failed construction: the error names its cause
unchanged. -/
theorem make_error_spec (w : World) (path : String) (e : LTCError)
    (h : LTC.make w path = Except.error e) :
    (w.schematicFiles path = none ∧ e = LTCError.missingSchematicFile path) ∨
    (∃ file, w.schematicFiles path = some file ∧
      w.simulator (parseSchematic file) = none ∧ e = LTCError.missingOutputFile) ∨
    (∃ file out ts, w.schematicFiles path = some file ∧
      w.simulator (parseSchematic file) = some out ∧ ts ∈ out ∧
      parseTraceLine ts = none ∧ e = LTCError.malformedTraceLine ts) := by
  unfold LTC.make at h
  split at h
  · rename_i hf
    left
    simp only [Except.error.injEq] at h
    exact ⟨hf, h.symm⟩
  · rename_i file hf
    unfold runSimulation at h
    split at h
    · rename_i hs
      right; left
      simp only [Except.map, Except.error.injEq] at h
      exact ⟨file, hf, hs, h.symm⟩
    · rename_i out hs
      right; right
      cases hp : parseTraces out with
      | ok tr => rw [hp] at h; exact absurd h (by simp [Except.map])
      | error e2 =>
          rw [hp] at h
          simp only [Except.map, Except.error.injEq] at h
          obtain ⟨ts, hmem, hbad, he⟩ := parseTraces_error_spec out e2 hp
          exact ⟨file, out, ts, hf, hs, hmem, hbad, h ▸ he⟩

/-- C5: An operation fails with a propagated file error exactly when the
schematic file is missing, the simulator output file is missing, or a
trace line is malformed — and the error delivered to the caller names
that cause unchanged (no retry or recovery produces any other result). -/
theorem error_iff_missing_or_malformed (w : World) (path : String) :
    ((∃ e, LTC.make w path = Except.error e) ↔
      (w.schematicFiles path = none ∨
       ∃ file, w.schematicFiles path = some file ∧
         (w.simulator (parseSchematic file) = none ∨
          ∃ out ts, w.simulator (parseSchematic file) = some out ∧ ts ∈ out ∧
            parseTraceLine ts = none))) ∧
    ∀ e, LTC.make w path = Except.error e →
      (w.schematicFiles path = none ∧ e = LTCError.missingSchematicFile path) ∨
      (∃ file, w.schematicFiles path = some file ∧
        w.simulator (parseSchematic file) = none ∧ e = LTCError.missingOutputFile) ∨
      (∃ file out ts, w.schematicFiles path = some file ∧
        w.simulator (parseSchematic file) = some out ∧ ts ∈ out ∧
        parseTraceLine ts = none ∧ e = LTCError.malformedTraceLine ts) := by
  constructor
  · constructor
    · rintro ⟨e, he⟩
      rcases make_error_spec w path e he with ⟨hf, _⟩ | ⟨file, hf, hs, _⟩ |
        ⟨file, out, ts, hf, hs, hmem, hbad, _⟩
      · exact Or.inl hf
      · exact Or.inr ⟨file, hf, Or.inl hs⟩
      · exact Or.inr ⟨file, hf, Or.inr ⟨out, ts, hs, hmem, hbad⟩⟩
    · rintro (hf | ⟨file, hf, hs | ⟨out, ts, hs, hmem, hbad⟩⟩)
      · refine ⟨LTCError.missingSchematicFile path, ?_⟩
        simp only [LTC.make, hf]
      · refine ⟨LTCError.missingOutputFile, ?_⟩
        simp only [LTC.make, runSimulation, hf, hs, Except.map]
      · obtain ⟨e, hpe⟩ := parseTraces_error_of_malformed out ts hmem hbad
        refine ⟨e, ?_⟩
        simp only [LTC.make, runSimulation, hf, hs, hpe, Except.map]
  · exact make_error_spec w path

/-- Witness for C5: a malformed trace line in the output makes the
construction fail. -/
theorem error_iff_missing_or_malformed_witness :
    ∃ e, LTC.make wBadOut ("amp.asc") = Except.error e :=
  (error_iff_missing_or_malformed wBadOut ("amp.asc")).1.mpr
    (Or.inr ⟨fileEx, rfl,
      Or.inr ⟨badOut, [Tok.word ("time"), Tok.word ("x")], rfl, by decide, rfl⟩⟩)

/-- The empty log satisfies any precedence property. -/
theorem precededBy_nil (p q : Event → Bool) : PrecededBy [] p q := by
  intro i hi hp
  simp at hi

/-- Order properties of the two-event log (missing output file). -/
theorem orderProps2 (sch : Schematic) :
    PrecededBy [Event.invokeSimulator sch, Event.simulatorCompleted] isRead isCompleted ∧
    PrecededBy [Event.invokeSimulator sch, Event.simulatorCompleted] isCompleted isInvoke ∧
    PrecededBy [Event.invokeSimulator sch, Event.simulatorCompleted] isPlot isRead := by
  refine ⟨?_, ?_, ?_⟩ <;> intro i hi hp <;>
    simp only [List.length_cons, List.length_nil] at hi
  · interval_cases i
    · exact Bool.noConfusion hp
    · exact Bool.noConfusion hp
  · interval_cases i
    · exact Bool.noConfusion hp
    · exact ⟨0, by omega, rfl⟩
  · interval_cases i
    · exact Bool.noConfusion hp
    · exact Bool.noConfusion hp

/-- Order properties of the three-event log (output file read). -/
theorem orderProps3 (sch : Schematic) :
    PrecededBy [Event.invokeSimulator sch, Event.simulatorCompleted,
      Event.readOutputFile] isRead isCompleted ∧
    PrecededBy [Event.invokeSimulator sch, Event.simulatorCompleted,
      Event.readOutputFile] isCompleted isInvoke ∧
    PrecededBy [Event.invokeSimulator sch, Event.simulatorCompleted,
      Event.readOutputFile] isPlot isRead := by
  refine ⟨?_, ?_, ?_⟩ <;> intro i hi hp <;>
    simp only [List.length_cons, List.length_nil] at hi
  · interval_cases i
    · exact Bool.noConfusion hp
    · exact Bool.noConfusion hp
    · exact ⟨1, by omega, rfl⟩
  · interval_cases i
    · exact Bool.noConfusion hp
    · exact ⟨0, by omega, rfl⟩
    · exact Bool.noConfusion hp
  · interval_cases i
    · exact Bool.noConfusion hp
    · exact Bool.noConfusion hp
    · exact Bool.noConfusion hp

/-- Order properties of the four-event log (successful run and plot). -/
theorem orderProps4 (sch : Schematic) :
    PrecededBy [Event.invokeSimulator sch, Event.simulatorCompleted,
      Event.readOutputFile, Event.plot] isRead isCompleted ∧
    PrecededBy [Event.invokeSimulator sch, Event.simulatorCompleted,
      Event.readOutputFile, Event.plot] isCompleted isInvoke ∧
    PrecededBy [Event.invokeSimulator sch, Event.simulatorCompleted,
      Event.readOutputFile, Event.plot] isPlot isRead := by
  refine ⟨?_, ?_, ?_⟩ <;> intro i hi hp <;>
    simp only [List.length_cons, List.length_nil] at hi
  · interval_cases i
    · exact Bool.noConfusion hp
    · exact Bool.noConfusion hp
    · exact ⟨1, by omega, rfl⟩
    · exact Bool.noConfusion hp
  · interval_cases i
    · exact Bool.noConfusion hp
    · exact ⟨0, by omega, rfl⟩
    · exact Bool.noConfusion hp
    · exact Bool.noConfusion hp
  · interval_cases i
    · exact Bool.noConfusion hp
    · exact Bool.noConfusion hp
    · exact Bool.noConfusion hp
    · exact ⟨2, by omega, rfl⟩

/-- The event log of one run has one of two shapes. -/
theorem runSimulationEv_fst (w : World) (sch : Schematic) :
    (runSimulationEv w sch).1 =
      [Event.invokeSimulator sch, Event.simulatorCompleted] ∨
    (runSimulationEv w sch).1 =
      [Event.invokeSimulator sch, Event.simulatorCompleted, Event.readOutputFile] := by
  unfold runSimulationEv
  cases w.simulator sch
  · exact Or.inl rfl
  · exact Or.inr rfl

/-- The event log of the scripted run has one of four shapes. -/
theorem scriptRunEv_shapes (w : World) (path : String) :
    scriptRunEv w path = [] ∨
    (∃ sch, scriptRunEv w path =
      [Event.invokeSimulator sch, Event.simulatorCompleted]) ∨
    (∃ sch, scriptRunEv w path =
      [Event.invokeSimulator sch, Event.simulatorCompleted, Event.readOutputFile]) ∨
    (∃ sch, scriptRunEv w path =
      [Event.invokeSimulator sch, Event.simulatorCompleted, Event.readOutputFile,
       Event.plot]) := by
  cases hf : w.schematicFiles path with
  | none =>
      left
      simp only [scriptRunEv, LTC.makeEv, hf]
  | some file =>
      cases hs : w.simulator (parseSchematic file) with
      | none =>
          right; left
          exact ⟨parseSchematic file,
            by simp [scriptRunEv, LTC.makeEv, runSimulationEv, hf, hs, Except.map]⟩
      | some out =>
          cases hp : parseTraces out with
          | error e =>
              right; right; left
              exact ⟨parseSchematic file,
                by simp [scriptRunEv, LTC.makeEv, runSimulationEv, hf, hs, hp, Except.map]⟩
          | ok tr =>
              right; right; right
              exact ⟨parseSchematic file,
                by simp [scriptRunEv, LTC.makeEv, runSimulationEv, hf, hs, hp, Except.map]⟩

/-- C6: Each run follows the fixed order invoke → complete → read →
plot: in the event log of the scripted run and of `update()`, every read
of the result file is preceded by the completion of the invoked
simulator process, every completion by the invocation, and every plot by
the read — in particular the result file is never read before the
invoked simulator process has completed. -/
theorem simulation_event_order (w : World) (path : String) (obj : LTC) :
    (PrecededBy (scriptRunEv w path) isRead isCompleted ∧
     PrecededBy (scriptRunEv w path) isCompleted isInvoke ∧
     PrecededBy (scriptRunEv w path) isPlot isRead) ∧
    (PrecededBy (LTC.updateEv w obj).1 isRead isCompleted ∧
     PrecededBy (LTC.updateEv w obj).1 isCompleted isInvoke ∧
     PrecededBy (LTC.updateEv w obj).1 isPlot isRead) := by
  constructor
  · rcases scriptRunEv_shapes w path with h | ⟨sch, h⟩ | ⟨sch, h⟩ | ⟨sch, h⟩ <;> rw [h]
    · exact ⟨precededBy_nil _ _, precededBy_nil _ _, precededBy_nil _ _⟩
    · exact orderProps2 sch
    · exact orderProps3 sch
    · exact orderProps4 sch
  · have hu : (LTC.updateEv w obj).1 = (runSimulationEv w obj.schematic).1 := rfl
    rw [hu]
    rcases runSimulationEv_fst w obj.schematic with h | h <;> rw [h]
    · exact orderProps2 obj.schematic
    · exact orderProps3 obj.schematic

/-- Witness for C6 at the concrete example world. -/
theorem simulation_event_order_witness :
    PrecededBy (scriptRunEv wEx ("amp.asc")) isRead isCompleted ∧
    PrecededBy (LTC.updateEv wEx objEx).1 isRead isCompleted :=
  ⟨(simulation_event_order wEx ("amp.asc") objEx).1.1,
   (simulation_event_order wEx ("amp.asc") objEx).2.1⟩

/-- C7: Every call that triggers a simulation invokes the external
simulator process at most once (exactly once for `update()`) and reads
the output file at most once: a failed invocation or a failed read is
never retried, in any world, including failing ones. -/
theorem simulator_invoked_at_most_once (w : World) (path : String) (obj : LTC) :
    ((LTC.makeEv w path).1.countP isInvoke ≤ 1 ∧
     (LTC.makeEv w path).1.countP isRead ≤ 1) ∧
    ((LTC.updateEv w obj).1.countP isInvoke = 1 ∧
     (LTC.updateEv w obj).1.countP isRead ≤ 1) ∧
    (scriptRunEv w path).countP isInvoke ≤ 1 := by
  refine ⟨?_, ⟨(runSimulationEv_counts w obj.schematic).1,
    (runSimulationEv_counts w obj.schematic).2⟩, ?_⟩
  · cases hf : w.schematicFiles path with
    | none =>
        have h0 : (LTC.makeEv w path).1 = [] := by simp only [LTC.makeEv, hf]
        rw [h0]
        simp
    | some file =>
        rw [makeEv_fst_of_some w path file hf]
        exact ⟨le_of_eq (runSimulationEv_counts w (parseSchematic file)).1,
          (runSimulationEv_counts w (parseSchematic file)).2⟩
  · rcases scriptRunEv_shapes w path with h | ⟨sch, h⟩ | ⟨sch, h⟩ | ⟨sch, h⟩ <;> rw [h] <;>
      simp [List.countP_cons, isInvoke]

/-- C10: The raw reader may deliver the `time` trace with sign-corrupted
(negative) entries; for every sign pattern, taking the element-wise
absolute value of the delivered array yields the correct, intended time
values, while every other (voltage) trace needs no correction — it is
delivered exactly as `get_trace_data` returns it. -/
theorem time_abs_recovers_intended (sg : Nat → Bool) (obj : LTC) (xs : List Int)
    (ht : lookupTrace ("time") obj.traces = some xs)
    (hnn : ∀ x ∈ xs, 0 ≤ x) :
    (∃ ys, LTC.get_trace_data_raw obj sg ("time") = some ys ∧
      ys.map (fun y => |y|) = xs) ∧
    ∀ name, ¬ name = "time" →
      LTC.get_trace_data_raw obj sg name = LTC.get_trace_data obj name := by
  constructor
  · refine ⟨applySigns sg 0 xs, ?_, applySigns_abs sg xs 0 hnn⟩
    unfold LTC.get_trace_data_raw
    rw [lookupTrace_corruptTime]
    simp [ht]
  · intro name hn
    unfold LTC.get_trace_data_raw LTC.get_trace_data
    rw [lookupTrace_corruptTime]
    simp [hn]

/-- Witness for C10: a sign pattern flipping every entry of the example
time trace, recovered by the absolute value. -/
theorem time_abs_recovers_intended_witness :
    (∃ ys, LTC.get_trace_data_raw objEx (fun _ => true) ("time") = some ys ∧
      ys.map (fun y => |y|) = [0, 1, 2]) ∧
    ∀ name, ¬ name = "time" →
      LTC.get_trace_data_raw objEx (fun _ => true) name =
        LTC.get_trace_data objEx name :=
  time_abs_recovers_intended (fun _ => true) objEx [0, 1, 2] rfl (by decide)
